import Mathlib

/-!
Shallow embedding of the core of `uvcombine/uvcombine.py` (Fourier-domain
feathering of a high-resolution and a low-resolution image), together with
proofs about the merge policies, the weighting-kernel construction, the
input sanitization, the cube combination and the regridding precondition
checks.

Images are embedded as functions `Fin m → Fin n → _` (row, column).  Input
pixel samples are modelled by `Sample`, which distinguishes finite values
from the IEEE special values `nan`, `+inf` and `-inf` so that the
`np.nan_to_num` sanitization step can be stated faithfully.  The discrete
Fourier transform `np.fft.fft2` and its inverse are embedded as the usual
exponential sums over `ℂ`.
-/

namespace UVCombine

/-- A pixel sample of an input image: either a finite real value or one of
the IEEE floating-point special values (`nan`, `+inf`, `-inf`). -/
inductive Sample where
  | finite (r : ℝ)
  | nan
  | posInf
  | negInf

/-- The largest finite IEEE double, `np.finfo(np.float64).max`.
`np.nan_to_num` substitutes this value (resp. its negation) for `+inf`
(resp. `-inf`). -/
def FLOAT_MAX : ℝ := 1.7976931348623157e308

/-- `np.nan_to_num` with default arguments: `nan ↦ 0`, `+inf ↦ FLOAT_MAX`,
`-inf ↦ -FLOAT_MAX`, finite values unchanged. -/
def nanToNum : Sample → ℝ
  | .finite r => r
  | .nan => 0
  | .posInf => FLOAT_MAX
  | .negInf => -FLOAT_MAX

/-- Multiplication of a pixel sample by a finite real scale factor,
following IEEE semantics (`0 * ±inf = nan`, sign of the factor flips the
infinity).  This models expressions such as `im_hi*highresscalefactor`. -/
noncomputable def Sample.scale (c : ℝ) : Sample → Sample
  | .finite r => .finite (c * r)
  | .nan => .nan
  | .posInf => if 0 < c then .posInf else if c < 0 then .negInf else .nan
  | .negInf => if 0 < c then .negInf else if c < 0 then .posInf else .nan

/-- The 2-D discrete Fourier transform, `np.fft.fft2`:
`F[k,l] = ∑_{a,b} f[a,b]·exp(-2πi(ka/m + lb/n))`. -/
noncomputable def fft2 {m n : ℕ} (f : Fin m → Fin n → ℂ) : Fin m → Fin n → ℂ :=
  fun k l => ∑ a : Fin m, ∑ b : Fin n,
    f a b * Complex.exp (-2 * (Real.pi : ℂ) * Complex.I *
      (((k : ℕ) : ℂ) * ((a : ℕ) : ℂ) / ((m : ℕ) : ℂ) +
       ((l : ℕ) : ℂ) * ((b : ℕ) : ℂ) / ((n : ℕ) : ℂ)))

/-- The inverse 2-D discrete Fourier transform, `np.fft.ifft2`:
`f[k,l] = (mn)⁻¹ ∑_{a,b} F[a,b]·exp(+2πi(ka/m + lb/n))`. -/
noncomputable def ifft2 {m n : ℕ} (f : Fin m → Fin n → ℂ) : Fin m → Fin n → ℂ :=
  fun k l => (((m : ℕ) : ℂ) * ((n : ℕ) : ℂ))⁻¹ * ∑ a : Fin m, ∑ b : Fin n,
    f a b * Complex.exp (2 * (Real.pi : ℂ) * Complex.I *
      (((k : ℕ) : ℂ) * ((a : ℕ) : ℂ) / ((m : ℕ) : ℂ) +
       ((l : ℕ) : ℂ) * ((b : ℕ) : ℂ) / ((n : ℕ) : ℂ)))

/-- `np.fft.fftshift` on a 2-D array: a cyclic roll by `m/2` (resp. `n/2`)
along each axis, so `out[i,j] = in[(i - m/2) mod m, (j - n/2) mod n]`. -/
def fftshift2 {m n : ℕ} [NeZero m] [NeZero n] (f : Fin m → Fin n → ℝ) :
    Fin m → Fin n → ℝ :=
  fun i j =>
    f ⟨((i : ℕ) + (m - m / 2)) % m, Nat.mod_lt _ (Nat.pos_of_ne_zero (NeZero.ne m))⟩
      ⟨((j : ℕ) + (n - n / 2)) % n, Nat.mod_lt _ (Nat.pos_of_ne_zero (NeZero.ne n))⟩

/-- The maximum entry of a (nonempty) 2-D real array, `arr.max()`. -/
noncomputable def arrMax {m n : ℕ} [NeZero m] [NeZero n] (f : Fin m → Fin n → ℝ) : ℝ :=
  Finset.univ.sup' Finset.univ_nonempty (fun p : Fin m × Fin n => f p.1 p.2)

/-- The FFT-shifted spatial Gaussian built by `feather_kernel`:
`np.fft.fftshift(np.exp(-(xgrid**2+ygrid**2)/(2*sigma**2)))` where
`ygrid, xgrid` are pixel offsets from the geometric center
`((nax2-1)/2, (nax1-1)/2)`. -/
noncomputable def gaussKernel (nax2 nax1 : ℕ) [NeZero nax2] [NeZero nax1] (sigma : ℝ) :
    Fin nax2 → Fin nax1 → ℝ :=
  fftshift2 (fun y x =>
    Real.exp (-((((x : ℕ) : ℝ) - (((nax1 : ℕ) : ℝ) - 1) / 2) ^ 2 +
                (((y : ℕ) : ℝ) - (((nax2 : ℕ) : ℝ) - 1) / 2) ^ 2) / (2 * sigma ^ 2)))

/-- The un-normalized low-resolution weight kernel of `feather_kernel`:
`np.abs(np.fft.fft2(kernel))`. -/
noncomputable def kfftUnnormalized (nax2 nax1 : ℕ) [NeZero nax2] [NeZero nax1]
    (sigma : ℝ) : Fin nax2 → Fin nax1 → ℝ :=
  fun k l => Complex.abs (fft2 (fun a b => ((gaussKernel nax2 nax1 sigma a b : ℝ) : ℂ)) k l)

/-- `feather_kernel(nax2, nax1, lowresfwhm, pixscale)`: builds the
complementary Fourier-domain weight pair `(kfft, ikfft)`.  `sigma` is the
spatial-domain Gaussian width `lowresfwhm / sqrt(8 ln 2) / pixscale`
(both `lowresfwhm` and `pixscale` in degrees); `kfft` is the magnitude of
the Fourier transform of the FFT-shifted centered Gaussian, normalized by
its maximum (`kfft /= kfft.max()`), and `ikfft = 1 - kfft`. -/
noncomputable def feather_kernel (nax2 nax1 : ℕ) [NeZero nax2] [NeZero nax1]
    (lowresfwhm pixscale : ℝ) :
    (Fin nax2 → Fin nax1 → ℝ) × (Fin nax2 → Fin nax1 → ℝ) :=
  let fwhm : ℝ := Real.sqrt (8 * Real.log 2)
  let sigma : ℝ := lowresfwhm / fwhm / pixscale
  let M : ℝ := arrMax (kfftUnnormalized nax2 nax1 sigma)
  let kfft : Fin nax2 → Fin nax1 → ℝ := fun k l => kfftUnnormalized nax2 nax1 sigma k l / M
  (kfft, fun k l => 1 - kfft k l)

/-- `fftmerge(kfft, ikfft, im_hi, im_lo, highpassfilterSD, replace_hires,
deconvSD, min_beam_fraction)`: sanitize both input images with
`np.nan_to_num`, transform them with `np.fft.fft2`, combine the two
Fourier fields under the selected policy, and inverse-transform.

`replace_hires` is `False` or a threshold (modelled as `Option ℝ`); as in
Python, `if replace_hires:` engages the replace branch only when the
threshold is nonzero (a zero threshold is falsy).  In the replace branch
`fftsum` starts as a copy of `fft_lo` and the entries where
`ikfft > replace_hires` are overwritten with `fft_hi`.  Otherwise
`lo_conv` is `kfft*fft_lo` (highpassfilterSD), or `fft_lo/kfft` with the
entries where `kfft < min_beam_fraction` zeroed (deconvSD), or `fft_lo`
unchanged (default), and `fftsum = lo_conv + ikfft*fft_hi`.  Returns
`(fftsum, combo)` with `combo = np.fft.ifft2(fftsum)`. -/
noncomputable def fftmerge {m n : ℕ} (kfft ikfft : Fin m → Fin n → ℝ)
    (im_hi im_lo : Fin m → Fin n → Sample)
    (highpassfilterSD : Bool) (replace_hires : Option ℝ) (deconvSD : Bool)
    (min_beam_fraction : ℝ := 0.1) :
    (Fin m → Fin n → ℂ) × (Fin m → Fin n → ℂ) :=
  let fft_hi := fft2 (fun a b => ((nanToNum (im_hi a b) : ℝ) : ℂ))
  let fft_lo := fft2 (fun a b => ((nanToNum (im_lo a b) : ℝ) : ℂ))
  let nonReplace : Fin m → Fin n → ℂ :=
    let lo_conv : Fin m → Fin n → ℂ :=
      if highpassfilterSD then
        fun p q => ((kfft p q : ℝ) : ℂ) * fft_lo p q
      else if deconvSD then
        fun p q =>
          if kfft p q < min_beam_fraction then 0
          else fft_lo p q / ((kfft p q : ℝ) : ℂ)
      else fft_lo
    fun p q => lo_conv p q + ((ikfft p q : ℝ) : ℂ) * fft_hi p q
  let fftsum : Fin m → Fin n → ℂ :=
    match replace_hires with
    | some t =>
      if t ≠ 0 then
        fun p q => if ikfft p q > t then fft_hi p q else fft_lo p q
      else nonReplace
    | none => nonReplace
  (fftsum, ifft2 fftsum)

/-- The part of a FITS header that `regrid` consumes: the `NAXIS`,
`NAXIS1`, `NAXIS2` cards and the projection-plane pixel area of the
embedded WCS (`wcs.utils.proj_plane_pixel_area(wcs.WCS(hd))`). -/
structure FitsHeader where
  naxis : ℕ
  naxis1 : ℕ
  naxis2 : ℕ
  pixArea : ℝ

/-- An opaque numpy array as `regrid` sees it: its rank and its (flattened,
multi-indexed) data.  Only the rank takes part in the dimensionality
checks; the data is handed to the external reprojection routine. -/
structure PyArray where
  ndim : ℕ
  data : List ℕ → ℝ

/-- `regrid(hd1, im1, im2raw, hd2)`: assert that both the low-resolution
input (`hd2`/`im2raw`) and the high-resolution input (`hd1`/`im1`) are
exactly 2-dimensional (header `NAXIS` chained-equal to the array rank
chained-equal to 2); then read `pixscale = sqrt(proj_plane_pixel_area)`
and `(nax1, nax2)` from the high-resolution header, call the external
`reproject_interp` (passed here as an oracle, returning the resampled
image and a coverage mask that is discarded), and return
`(rhdu, im2, nax1, nax2, pixscale)` where `rhdu` carries the reprojected
data under the high-resolution header.  A failed assert is an
`Except.error` with the assert's message. -/
noncomputable def regrid (hd1 : FitsHeader) (im1 : PyArray) (im2raw : PyArray)
    (hd2 : FitsHeader)
    (reproject_interp : PyArray × FitsHeader → FitsHeader → PyArray × PyArray) :
    Except String ((PyArray × FitsHeader) × PyArray × ℕ × ℕ × ℝ) :=
  if ¬ (hd2.naxis = im2raw.ndim ∧ im2raw.ndim = 2) then
    Except.error "Error: Input lores image dimension non-equal to 2."
  else if ¬ (hd1.naxis = im1.ndim ∧ im1.ndim = 2) then
    Except.error "Error: Input hires image dimension non-equal to 2."
  else
    let pixscale : ℝ := Real.sqrt hd1.pixArea
    let nax1 := hd1.naxis1
    let nax2 := hd1.naxis2
    let res := reproject_interp (im2raw, hd2) hd1
    let im2 := res.1
    Except.ok ((im2, hd1), im2, nax1, nax2, pixscale)

/-- The core computation of `feather_simple` after the external I/O steps
(`file_in`, the `reproject_interp` call inside `regrid`, and the
`radio_beam` header lookup) have produced their values: resolve
`lowresfwhm` to the low-resolution beam major axis when not given, derive
`pixscale = sqrt(proj_plane_pixel_area)` from the high-resolution header,
build the kernel pair and merge the scaled images.  `feather_simple`
exposes no `min_beam_fraction` argument, so `fftmerge` runs with its
default. -/
noncomputable def feather_simple {m n : ℕ} [NeZero m] [NeZero n]
    (im_hi : Fin m → Fin n → Sample)
    (reprojected_lo : Fin m → Fin n → Sample)
    (pixArea : ℝ) (beam_major : ℝ) (lowresfwhm : Option ℝ)
    (highresscalefactor lowresscalefactor : ℝ)
    (highpassfilterSD : Bool) (replace_hires : Option ℝ) (deconvSD : Bool) :
    Fin m → Fin n → ℂ :=
  let fwhm : ℝ := lowresfwhm.getD beam_major
  let pixscale : ℝ := Real.sqrt pixArea
  let kp := feather_kernel m n fwhm pixscale
  (fftmerge kp.1 kp.2
    (fun a b => Sample.scale highresscalefactor (im_hi a b))
    (fun a b => Sample.scale lowresscalefactor (reprojected_lo a b))
    highpassfilterSD replace_hires deconvSD).2

/-- `fourier_combine_cubes(cube_hi, cube_lo, ...)`: refuse cubes whose
high-resolution element count exceeds `1e8`; otherwise spatially
reproject the whole low-resolution cube onto the high-resolution grid
(one external call, passed as an oracle), build one kernel pair sized to
the spatial grid, and combine each spectral plane `ii` independently with
`fftmerge` (default mode flags), storing `combo.real` in output plane
`ii`.  The cube has `N` planes of `m×n` pixels. -/
noncomputable def fourier_combine_cubes {N m n : ℕ} [NeZero m] [NeZero n]
    (cube_hi : Fin N → Fin m → Fin n → Sample)
    (reproject : Unit → Fin N → Fin m → Fin n → Sample)
    (highresscalefactor lowresscalefactor : ℝ)
    (lowresfwhm pixscale : ℝ) :
    Except String (Fin N → Fin m → Fin n → ℝ) :=
  if 10 ^ 8 < N * m * n then
    Except.error "Cube is probably too large for this operation to work in memory"
  else
    let dcube_lo := reproject ()
    let kp := feather_kernel m n lowresfwhm pixscale
    Except.ok (fun ii p q =>
      ((fftmerge kp.1 kp.2
          (fun a b => Sample.scale highresscalefactor (cube_hi ii a b))
          (fun a b => Sample.scale lowresscalefactor (dcube_lo ii a b))
          false none false).2 p q).re)

/-! ### A heap model of the array allocations and in-place writes of `fftmerge`

To settle the frame-effect claim (the four argument arrays are never
mutated) we re-run `fftmerge` over an explicit heap of numpy-array
objects.  Every numpy expression that creates a new array allocates a
fresh cell; the two in-place statements of the source
(`fftsum[mask] = fft_hi[mask]` and `lo_conv[kfft < min_beam_fraction] = 0`)
write to an existing cell; and the aliasing assignment `lo_conv = fft_lo`
of the default branch reuses the address of `fft_lo` without copying. -/

/-- A heap cell: a real-, sample- or complex-valued 2-D array object. -/
inductive Cell (m n : ℕ) where
  | rarr (a : Fin m → Fin n → ℝ)
  | sarr (a : Fin m → Fin n → Sample)
  | carr (a : Fin m → Fin n → ℂ)

/-- A heap of numpy-array objects, addressed by position. -/
def Heap (m n : ℕ) := List (Cell m n)

/-- Allocate a fresh array object; returns the new heap and the address. -/
def halloc {m n : ℕ} (h : Heap m n) (c : Cell m n) : Heap m n × ℕ :=
  (List.append h [c], List.length h)

/-- Overwrite the array object at an address (an in-place numpy write). -/
def hwrite {m n : ℕ} (h : Heap m n) (i : ℕ) (c : Cell m n) : Heap m n :=
  List.set h i c

/-- Read the array object at an address. -/
def hread {m n : ℕ} (h : Heap m n) (i : ℕ) : Cell m n :=
  List.getD h i (.carr fun _ _ => 0)

/-- Read a real-valued array object. -/
def readR {m n : ℕ} (h : Heap m n) (i : ℕ) : Fin m → Fin n → ℝ :=
  match hread h i with
  | .rarr a => a
  | _ => fun _ _ => 0

/-- Read a sample-valued array object. -/
def readS {m n : ℕ} (h : Heap m n) (i : ℕ) : Fin m → Fin n → Sample :=
  match hread h i with
  | .sarr a => a
  | _ => fun _ _ => .finite 0

/-- Read a complex-valued array object. -/
def readC {m n : ℕ} (h : Heap m n) (i : ℕ) : Fin m → Fin n → ℂ :=
  match hread h i with
  | .carr a => a
  | _ => fun _ _ => 0

/-- The non-replace tail of `fftmerge` over the heap: compute `lo_conv`
(allocating in the `highpassfilterSD` and `deconvSD` branches, aliasing
`fft_lo` in the default branch; the `deconvSD` branch zeroes the masked
entries of the freshly allocated quotient in place), then allocate
`fftsum = lo_conv + ikfft*fft_hi` and `combo = ifft2(fftsum)`.  Returns
the final heap and the addresses of `fftsum` and `combo`. -/
noncomputable def fftmergeProgElse {m n : ℕ} (h2 : Heap m n)
    (akfft aikfft afft_hi afft_lo : ℕ)
    (highpassfilterSD deconvSD : Bool) (min_beam_fraction : ℝ) :
    Heap m n × ℕ × ℕ :=
  let kfft := readR h2 akfft
  let ikfft := readR h2 aikfft
  let step : Heap m n × ℕ :=
    if highpassfilterSD then
      halloc h2 (.carr fun p q => ((kfft p q : ℝ) : ℂ) * readC h2 afft_lo p q)
    else if deconvSD then
      let p := halloc h2 (.carr fun a b => readC h2 afft_lo a b / ((kfft a b : ℝ) : ℂ))
      let h3 := hwrite p.1 p.2 (.carr fun a b =>
        if kfft a b < min_beam_fraction then 0
        else readC h2 afft_lo a b / ((kfft a b : ℝ) : ℂ))
      (h3, p.2)
    else (h2, afft_lo)
  let h3 := step.1
  let alo_conv := step.2
  let p4 := halloc h3 (.carr fun p q =>
    readC h3 alo_conv p q + ((ikfft p q : ℝ) : ℂ) * readC h3 afft_hi p q)
  let p5 := halloc p4.1 (.carr (ifft2 (readC p4.1 p4.2)))
  (p5.1, p4.2, p5.2)

/-- `fftmerge` over the heap: allocate `fft_hi` and `fft_lo` (the
transforms of the `np.nan_to_num`-sanitized inputs), then either take the
replace branch (allocate `fftsum` as a copy of `fft_lo` and overwrite its
entries where `ikfft > replace_hires` with `fft_hi` in place, then
allocate `combo`), or run `fftmergeProgElse`.  Returns the final heap and
the addresses of `fftsum` and `combo`. -/
noncomputable def fftmergeProg {m n : ℕ} (h0 : Heap m n)
    (akfft aikfft ahi alo : ℕ)
    (highpassfilterSD : Bool) (replace_hires : Option ℝ) (deconvSD : Bool)
    (min_beam_fraction : ℝ := 0.1) :
    Heap m n × ℕ × ℕ :=
  let ikfft := readR h0 aikfft
  let p1 := halloc h0 (.carr (fft2 fun a b => ((nanToNum (readS h0 ahi a b) : ℝ) : ℂ)))
  let p2 := halloc p1.1 (.carr (fft2 fun a b => ((nanToNum (readS h0 alo a b) : ℝ) : ℂ)))
  let h2 := p2.1
  let afft_hi := p1.2
  let afft_lo := p2.2
  match replace_hires with
  | some t =>
    if t ≠ 0 then
      let p3 := halloc h2 (.carr (readC h2 afft_lo))
      let h4 := hwrite p3.1 p3.2 (.carr fun p q =>
        if ikfft p q > t then readC h2 afft_hi p q else readC h2 afft_lo p q)
      let p5 := halloc h4 (.carr (ifft2 (readC h4 p3.2)))
      (p5.1, p3.2, p5.2)
    else
      fftmergeProgElse h2 akfft aikfft afft_hi afft_lo highpassfilterSD deconvSD
        min_beam_fraction
  | none =>
    fftmergeProgElse h2 akfft aikfft afft_hi afft_lo highpassfilterSD deconvSD
      min_beam_fraction

/-! ### Helper lemmas -/

/-- The zero-frequency bin of the transform is the plain sum of the input. -/
lemma fft2_apply_zero {m n : ℕ} (hm : 0 < m) (hn : 0 < n) (f : Fin m → Fin n → ℂ) :
    fft2 f ⟨0, hm⟩ ⟨0, hn⟩ = ∑ a : Fin m, ∑ b : Fin n, f a b := by
  unfold fft2
  refine Finset.sum_congr rfl fun a _ => Finset.sum_congr rfl fun b _ => ?_
  norm_num

/-- On a 1×1 grid the transform is the identity on the single entry. -/
lemma fft2_one_one (f : Fin 1 → Fin 1 → ℂ) : fft2 f 0 0 = f 0 0 := by
  have h := fft2_apply_zero one_pos one_pos f
  simpa using h

/-- Every entry of the FFT-shifted spatial Gaussian is positive. -/
lemma gaussKernel_pos (nax2 nax1 : ℕ) [NeZero nax2] [NeZero nax1] (sigma : ℝ)
    (a : Fin nax2) (b : Fin nax1) : 0 < gaussKernel nax2 nax1 sigma a b := by
  unfold gaussKernel fftshift2
  exact Real.exp_pos _

/-- The maximum of the un-normalized kernel magnitude is positive: the
zero-frequency bin is the sum of the (positive) Gaussian entries. -/
lemma arrMax_kfftUnnormalized_pos (nax2 nax1 : ℕ) [NeZero nax2] [NeZero nax1]
    (sigma : ℝ) : 0 < arrMax (kfftUnnormalized nax2 nax1 sigma) := by
  have h2 : 0 < nax2 := Nat.pos_of_ne_zero (NeZero.ne _)
  have h1 : 0 < nax1 := Nat.pos_of_ne_zero (NeZero.ne _)
  have hsum : 0 < ∑ a : Fin nax2, ∑ b : Fin nax1, gaussKernel nax2 nax1 sigma a b :=
    Finset.sum_pos
      (fun a _ => Finset.sum_pos (fun b _ => gaussKernel_pos nax2 nax1 sigma a b)
        Finset.univ_nonempty)
      Finset.univ_nonempty
  have hcast : (∑ a : Fin nax2, ∑ b : Fin nax1,
      ((gaussKernel nax2 nax1 sigma a b : ℝ) : ℂ))
      = ((∑ a : Fin nax2, ∑ b : Fin nax1, gaussKernel nax2 nax1 sigma a b : ℝ) : ℂ) := by
    push_cast
    rfl
  have hval : kfftUnnormalized nax2 nax1 sigma ⟨0, h2⟩ ⟨0, h1⟩
      = ∑ a : Fin nax2, ∑ b : Fin nax1, gaussKernel nax2 nax1 sigma a b := by
    unfold kfftUnnormalized
    rw [fft2_apply_zero, hcast, Complex.abs_ofReal, abs_of_pos hsum]
  exact lt_of_lt_of_le (hval ▸ hsum)
    (Finset.le_sup' (fun p : Fin nax2 × Fin nax1 => kfftUnnormalized nax2 nax1 sigma p.1 p.2)
      (Finset.mem_univ (⟨0, h2⟩, ⟨0, h1⟩)))

/-- Dividing an array by its (positive) maximum yields maximum `1`. -/
lemma arrMax_div_self {m n : ℕ} [NeZero m] [NeZero n] (f : Fin m → Fin n → ℝ)
    (hM : 0 < arrMax f) : arrMax (fun k l => f k l / arrMax f) = 1 := by
  apply le_antisymm
  · refine Finset.sup'_le _ _ fun p _ => ?_
    exact div_le_one_of_le₀
      (Finset.le_sup' (fun q : Fin m × Fin n => f q.1 q.2) (Finset.mem_univ p)) hM.le
  · obtain ⟨p, _, hp⟩ := Finset.exists_mem_eq_sup' Finset.univ_nonempty
      (fun q : Fin m × Fin n => f q.1 q.2)
    have h1 : f p.1 p.2 / arrMax f = 1 := by
      have : arrMax f = f p.1 p.2 := hp
      rw [this]
      exact div_self (by linarith [this ▸ hM])
    calc (1 : ℝ) = f p.1 p.2 / arrMax f := h1.symm
      _ ≤ arrMax (fun k l => f k l / arrMax f) :=
        Finset.le_sup' (fun q : Fin m × Fin n => f q.1 q.2 / arrMax f) (Finset.mem_univ p)

/-- The value of the default-policy merged Fourier field at one bin. -/
lemma fftmerge_default_apply {m n : ℕ} (kfft ikfft : Fin m → Fin n → ℝ)
    (im_hi im_lo : Fin m → Fin n → Sample) (mbf : ℝ) (p : Fin m) (q : Fin n) :
    (fftmerge kfft ikfft im_hi im_lo false none false mbf).1 p q
      = fft2 (fun a b => ((nanToNum (im_lo a b) : ℝ) : ℂ)) p q
        + ((ikfft p q : ℝ) : ℂ)
          * fft2 (fun a b => ((nanToNum (im_hi a b) : ℝ) : ℂ)) p q := rfl

/-! ### Claim theorems -/

/-- C1: with all three mode flags unset, `fftmerge` leaves the
low-resolution Fourier field unmodified and returns the asymmetric sum
`fftsum = fft_lo + ikfft*fft_hi`, with `combo = ifft2 fftsum`; it does
not implement the symmetric feather formula `kfft*fft_lo + ikfft*fft_hi`,
from which it differs on concrete inputs. -/
theorem fftmerge_default_policy :
    (∀ (m n : ℕ) (kfft ikfft : Fin m → Fin n → ℝ)
       (im_hi im_lo : Fin m → Fin n → Sample) (mbf : ℝ),
      (fftmerge kfft ikfft im_hi im_lo false none false mbf).1
          = (fun p q =>
              fft2 (fun a b => ((nanToNum (im_lo a b) : ℝ) : ℂ)) p q
                + ((ikfft p q : ℝ) : ℂ)
                  * fft2 (fun a b => ((nanToNum (im_hi a b) : ℝ) : ℂ)) p q)
        ∧ (fftmerge kfft ikfft im_hi im_lo false none false mbf).2
            = ifft2 (fftmerge kfft ikfft im_hi im_lo false none false mbf).1)
    ∧ ∃ (m n : ℕ) (kfft ikfft : Fin m → Fin n → ℝ)
        (im_hi im_lo : Fin m → Fin n → Sample) (mbf : ℝ) (p : Fin m) (q : Fin n),
        (fftmerge kfft ikfft im_hi im_lo false none false mbf).1 p q
          ≠ ((kfft p q : ℝ) : ℂ)
              * fft2 (fun a b => ((nanToNum (im_lo a b) : ℝ) : ℂ)) p q
            + ((ikfft p q : ℝ) : ℂ)
              * fft2 (fun a b => ((nanToNum (im_hi a b) : ℝ) : ℂ)) p q := by
  constructor
  · intro m n kfft ikfft im_hi im_lo mbf
    exact ⟨funext fun p => funext fun q => fftmerge_default_apply _ _ _ _ _ p q, rfl⟩
  · refine ⟨1, 1, fun _ _ => 1 / 2, fun _ _ => 1 / 2, fun _ _ => .finite 0,
      fun _ _ => .finite 1, 0.1, 0, 0, ?_⟩
    have hlo : fft2 (fun _ _ => ((nanToNum ((fun (_ : Fin 1) (_ : Fin 1) =>
        Sample.finite 1) 0 0) : ℝ) : ℂ)) (0 : Fin 1) (0 : Fin 1) = 1 := by
      rw [fft2_one_one]
      norm_num [nanToNum]
    have hhi : fft2 (fun _ _ => ((nanToNum ((fun (_ : Fin 1) (_ : Fin 1) =>
        Sample.finite 0) 0 0) : ℝ) : ℂ)) (0 : Fin 1) (0 : Fin 1) = 0 := by
      rw [fft2_one_one]
      norm_num [nanToNum]
    rw [fftmerge_default_apply]
    rw [show (fun a b => ((nanToNum ((fun (_ : Fin 1) (_ : Fin 1) => Sample.finite 1) a b) : ℝ) : ℂ))
        = (fun _ _ => ((nanToNum ((fun (_ : Fin 1) (_ : Fin 1) => Sample.finite 1) 0 0) : ℝ) : ℂ)) from rfl]
    rw [show (fun a b => ((nanToNum ((fun (_ : Fin 1) (_ : Fin 1) => Sample.finite 0) a b) : ℝ) : ℂ))
        = (fun _ _ => ((nanToNum ((fun (_ : Fin 1) (_ : Fin 1) => Sample.finite 0) 0 0) : ℝ) : ℂ)) from rfl]
    rw [hlo, hhi]
    norm_num

/-- C2: for positive grid dimensions and positive beam FWHM and pixel
scale, `feather_kernel` returns real arrays `(kfft, ikfft)` of the grid
shape with `ikfft = 1 - kfft` pointwise and `max(kfft) = 1` (enforced by
the division by `kfft.max()`). -/
theorem feather_kernel_complement_and_normalization (nax2 nax1 : ℕ)
    [NeZero nax2] [NeZero nax1] (lowresfwhm pixscale : ℝ)
    (hfwhm : 0 < lowresfwhm) (hpix : 0 < pixscale) :
    (∀ (k : Fin nax2) (l : Fin nax1),
      (feather_kernel nax2 nax1 lowresfwhm pixscale).2 k l
        = 1 - (feather_kernel nax2 nax1 lowresfwhm pixscale).1 k l)
    ∧ arrMax (feather_kernel nax2 nax1 lowresfwhm pixscale).1 = 1 := by
  constructor
  · intro k l
    rfl
  · show arrMax (fun k l =>
        kfftUnnormalized nax2 nax1 (lowresfwhm / Real.sqrt (8 * Real.log 2) / pixscale) k l
          / arrMax (kfftUnnormalized nax2 nax1
              (lowresfwhm / Real.sqrt (8 * Real.log 2) / pixscale))) = 1
    exact arrMax_div_self _ (arrMax_kfftUnnormalized_pos _ _ _)

/-- Witness for C2 at a concrete 2×2 grid with FWHM 1 and pixel scale 1. -/
theorem feather_kernel_complement_and_normalization_witness :
    ((0 : ℝ) < 1 ∧ (0 : ℝ) < 1) ∧
    ((∀ (k : Fin 2) (l : Fin 2),
      (feather_kernel 2 2 1 1).2 k l = 1 - (feather_kernel 2 2 1 1).1 k l)
    ∧ arrMax (feather_kernel 2 2 1 1).1 = 1) :=
  ⟨⟨by norm_num, by norm_num⟩,
    feather_kernel_complement_and_normalization 2 2 1 1 (by norm_num) (by norm_num)⟩

/-- C3: in `deconvSD` mode (other flags unset) with a positive
`min_beam_fraction` guard, every bin with `kfft < min_beam_fraction` has
its low-resolution contribution zeroed (the bin equals `ikfft*fft_hi`),
and every other bin equals `fft_lo/kfft + ikfft*fft_hi`. -/
theorem fftmerge_deconvSD_guard {m n : ℕ} (kfft ikfft : Fin m → Fin n → ℝ)
    (im_hi im_lo : Fin m → Fin n → Sample) (mbf : ℝ) (hmbf : 0 < mbf) :
    ∀ (p : Fin m) (q : Fin n),
      (kfft p q < mbf →
        (fftmerge kfft ikfft im_hi im_lo false none true mbf).1 p q
          = ((ikfft p q : ℝ) : ℂ)
            * fft2 (fun a b => ((nanToNum (im_hi a b) : ℝ) : ℂ)) p q)
      ∧ (mbf ≤ kfft p q →
        (fftmerge kfft ikfft im_hi im_lo false none true mbf).1 p q
          = fft2 (fun a b => ((nanToNum (im_lo a b) : ℝ) : ℂ)) p q / ((kfft p q : ℝ) : ℂ)
            + ((ikfft p q : ℝ) : ℂ)
              * fft2 (fun a b => ((nanToNum (im_hi a b) : ℝ) : ℂ)) p q) := by
  intro p q
  have hbase : (fftmerge kfft ikfft im_hi im_lo false none true mbf).1 p q
      = (if kfft p q < mbf then 0
         else fft2 (fun a b => ((nanToNum (im_lo a b) : ℝ) : ℂ)) p q / ((kfft p q : ℝ) : ℂ))
        + ((ikfft p q : ℝ) : ℂ)
          * fft2 (fun a b => ((nanToNum (im_hi a b) : ℝ) : ℂ)) p q := rfl
  constructor
  · intro h
    rw [hbase, if_pos h, zero_add]
  · intro h
    rw [hbase, if_neg (not_lt.mpr h)]

/-- Witness for C3 at a concrete 1×1 input with the default guard 0.1. -/
theorem fftmerge_deconvSD_guard_witness :
    (0 : ℝ) < 0.1 ∧
    ∀ (p : Fin 1) (q : Fin 1),
      ((fun (_ : Fin 1) (_ : Fin 1) => (1 : ℝ)) p q < 0.1 →
        (fftmerge (fun _ _ => (1 : ℝ)) (fun _ _ => (0 : ℝ))
          (fun _ _ => Sample.finite 0) (fun _ _ => Sample.finite 0) false none true 0.1).1 p q
          = (((fun (_ : Fin 1) (_ : Fin 1) => (0 : ℝ)) p q : ℝ) : ℂ)
            * fft2 (fun a b => ((nanToNum ((fun (_ : Fin 1) (_ : Fin 1) =>
                Sample.finite 0) a b) : ℝ) : ℂ)) p q)
      ∧ (0.1 ≤ (fun (_ : Fin 1) (_ : Fin 1) => (1 : ℝ)) p q →
        (fftmerge (fun _ _ => (1 : ℝ)) (fun _ _ => (0 : ℝ))
          (fun _ _ => Sample.finite 0) (fun _ _ => Sample.finite 0) false none true 0.1).1 p q
          = fft2 (fun a b => ((nanToNum ((fun (_ : Fin 1) (_ : Fin 1) =>
              Sample.finite 0) a b) : ℝ) : ℂ)) p q
              / (((fun (_ : Fin 1) (_ : Fin 1) => (1 : ℝ)) p q : ℝ) : ℂ)
            + (((fun (_ : Fin 1) (_ : Fin 1) => (0 : ℝ)) p q : ℝ) : ℂ)
              * fft2 (fun a b => ((nanToNum ((fun (_ : Fin 1) (_ : Fin 1) =>
                  Sample.finite 0) a b) : ℝ) : ℂ)) p q) :=
  ⟨by norm_num,
    fftmerge_deconvSD_guard (fun _ _ => 1) (fun _ _ => 0)
      (fun _ _ => Sample.finite 0) (fun _ _ => Sample.finite 0) 0.1 (by norm_num)⟩

/-- The replace branch of `fftmerge`, exposed as an `if` on the Python
truthiness test `if replace_hires:` (a zero threshold is falsy and falls
through to the non-replace policies). -/
lemma fftmerge_some_eq {m n : ℕ} (kfft ikfft : Fin m → Fin n → ℝ)
    (im_hi im_lo : Fin m → Fin n → Sample) (hp dc : Bool) (mbf t : ℝ) :
    (fftmerge kfft ikfft im_hi im_lo hp (some t) dc mbf).1
      = if t ≠ 0 then
          (fun p q =>
            if ikfft p q > t then
              fft2 (fun a b => ((nanToNum (im_hi a b) : ℝ) : ℂ)) p q
            else fft2 (fun a b => ((nanToNum (im_lo a b) : ℝ) : ℂ)) p q)
        else (fftmerge kfft ikfft im_hi im_lo hp none dc mbf).1 := rfl

/-- C4 (amended): for every nonzero threshold `t`, the replace policy
produces `fft_hi` at every bin with `ikfft > t` and `fft_lo` at every
other bin, regardless of the `highpassfilterSD` and `deconvSD` flags
(the replace branch is checked first). -/
theorem fftmerge_replace_hires_cutover {m n : ℕ} (kfft ikfft : Fin m → Fin n → ℝ)
    (im_hi im_lo : Fin m → Fin n → Sample) (hp dc : Bool) (mbf t : ℝ) (ht : t ≠ 0) :
    ∀ (p : Fin m) (q : Fin n),
      (ikfft p q > t →
        (fftmerge kfft ikfft im_hi im_lo hp (some t) dc mbf).1 p q
          = fft2 (fun a b => ((nanToNum (im_hi a b) : ℝ) : ℂ)) p q)
      ∧ (ikfft p q ≤ t →
        (fftmerge kfft ikfft im_hi im_lo hp (some t) dc mbf).1 p q
          = fft2 (fun a b => ((nanToNum (im_lo a b) : ℝ) : ℂ)) p q) := by
  intro p q
  rw [fftmerge_some_eq, if_pos ht]
  constructor
  · intro h
    rw [if_pos h]
  · intro h
    rw [if_neg (not_lt.mpr h)]

/-- Witness for the amended C4 at a concrete 1×1 input and threshold 1. -/
theorem fftmerge_replace_hires_cutover_witness :
    (1 : ℝ) ≠ 0 ∧
    ∀ (p : Fin 1) (q : Fin 1),
      ((fun (_ : Fin 1) (_ : Fin 1) => (2 : ℝ)) p q > (1 : ℝ) →
        (fftmerge (fun _ _ => (0 : ℝ)) (fun _ _ => (2 : ℝ))
          (fun _ _ => Sample.finite 1) (fun _ _ => Sample.finite 0)
          true (some 1) true 0.1).1 p q
          = fft2 (fun a b => ((nanToNum ((fun (_ : Fin 1) (_ : Fin 1) =>
              Sample.finite 1) a b) : ℝ) : ℂ)) p q)
      ∧ ((fun (_ : Fin 1) (_ : Fin 1) => (2 : ℝ)) p q ≤ (1 : ℝ) →
        (fftmerge (fun _ _ => (0 : ℝ)) (fun _ _ => (2 : ℝ))
          (fun _ _ => Sample.finite 1) (fun _ _ => Sample.finite 0)
          true (some 1) true 0.1).1 p q
          = fft2 (fun a b => ((nanToNum ((fun (_ : Fin 1) (_ : Fin 1) =>
              Sample.finite 0) a b) : ℝ) : ℂ)) p q) :=
  ⟨by norm_num,
    fftmerge_replace_hires_cutover (fun _ _ => 0) (fun _ _ => 2)
      (fun _ _ => Sample.finite 1) (fun _ _ => Sample.finite 0)
      true true 0.1 1 (by norm_num)⟩

/-- C4 counterexample: with threshold `0` the Python test
`if replace_hires:` is falsy, so the merge falls through to the default
policy: at a bin with `ikfft = 1/2 > 0` the output is
`fft_lo + ikfft*fft_hi = 3/2`, not `fft_hi = 1` as the claim requires. -/
theorem fftmerge_replace_hires_zero_threshold_cex :
    ((fun (_ : Fin 1) (_ : Fin 1) => (1 / 2 : ℝ)) 0 0 > (0 : ℝ)) ∧
    (fftmerge (fun (_ : Fin 1) (_ : Fin 1) => (1 / 2 : ℝ)) (fun _ _ => (1 / 2 : ℝ))
        (fun _ _ => Sample.finite 1) (fun _ _ => Sample.finite 1)
        false (some 0) false 0.1).1 0 0
      ≠ fft2 (fun a b => ((nanToNum ((fun (_ : Fin 1) (_ : Fin 1) =>
          Sample.finite 1) a b) : ℝ) : ℂ)) 0 0 := by
  constructor
  · norm_num
  · rw [fftmerge_some_eq, if_neg (by norm_num : ¬((0 : ℝ) ≠ 0)), fftmerge_default_apply,
      fft2_one_one]
    norm_num [nanToNum]

/-- C5 counterexample: a `+inf` input sample is not replaced by zero:
`np.nan_to_num` substitutes the largest finite double, which then appears
(nonzero) in the transform.  Here `im_lo` is the 1×1 array `[+inf]`,
`ikfft = 0`, and the default-mode `fftsum[0,0]` equals `FLOAT_MAX ≠ 0`,
whereas replacing the sample by zero would give `0`. -/
theorem fftmerge_inf_not_zeroed_cex :
    (fftmerge (fun (_ : Fin 1) (_ : Fin 1) => (1 : ℝ)) (fun _ _ => (0 : ℝ))
        (fun _ _ => Sample.finite 0) (fun _ _ => Sample.posInf)
        false none false 0.1).1 0 0
      = ((FLOAT_MAX : ℝ) : ℂ) ∧ (FLOAT_MAX : ℝ) ≠ 0 := by
  constructor
  · rw [fftmerge_default_apply, fft2_one_one, fft2_one_one]
    norm_num [nanToNum]
  · norm_num [FLOAT_MAX]

/-- C5 (amended): `fftmerge` sanitizes both inputs with `np.nan_to_num`
before transforming, so the transform sees only finite values: the merge
result is unchanged if every sample is first replaced by its sanitized
finite value.  The substitutions are `nan ↦ 0`, `+inf ↦ FLOAT_MAX`
(the largest finite double, not zero), `-inf ↦ -FLOAT_MAX`, finite
samples unchanged; no error is raised. -/
theorem fftmerge_sanitizes_nonfinite {m n : ℕ} (kfft ikfft : Fin m → Fin n → ℝ)
    (im_hi im_lo : Fin m → Fin n → Sample)
    (hp : Bool) (rh : Option ℝ) (dc : Bool) (mbf : ℝ) :
    (fftmerge kfft ikfft im_hi im_lo hp rh dc mbf
      = fftmerge kfft ikfft (fun a b => Sample.finite (nanToNum (im_hi a b)))
          (fun a b => Sample.finite (nanToNum (im_lo a b))) hp rh dc mbf)
    ∧ nanToNum Sample.nan = 0
    ∧ nanToNum Sample.posInf = FLOAT_MAX
    ∧ nanToNum Sample.negInf = -FLOAT_MAX
    ∧ ∀ r : ℝ, nanToNum (Sample.finite r) = r :=
  ⟨rfl, rfl, rfl, rfl, fun _ => rfl⟩

/-- C9: `feather_simple` exposes no `min_beam_fraction` parameter: for
every combination of its arguments (including `deconvSD = true`) its
result is the `fftmerge` combination with the guard threshold fixed at
the default `0.1`. -/
theorem feather_simple_min_beam_fraction_fixed {m n : ℕ} [NeZero m] [NeZero n]
    (im_hi reprojected_lo : Fin m → Fin n → Sample) (pixArea beam_major : ℝ)
    (lowresfwhm : Option ℝ) (hrsf lrsf : ℝ)
    (hp : Bool) (rh : Option ℝ) (dc : Bool) :
    feather_simple im_hi reprojected_lo pixArea beam_major lowresfwhm hrsf lrsf hp rh dc
      = (fftmerge
          (feather_kernel m n (lowresfwhm.getD beam_major) (Real.sqrt pixArea)).1
          (feather_kernel m n (lowresfwhm.getD beam_major) (Real.sqrt pixArea)).2
          (fun a b => Sample.scale hrsf (im_hi a b))
          (fun a b => Sample.scale lrsf (reprojected_lo a b))
          hp rh dc 0.1).2 := rfl

/-- Witness for C9 on a concrete 1×1 input with `deconvSD` selected. -/
theorem feather_simple_min_beam_fraction_fixed_witness :
    feather_simple (fun (_ : Fin 1) (_ : Fin 1) => Sample.finite 2)
        (fun (_ : Fin 1) (_ : Fin 1) => Sample.finite 3) 1 1 none 1 1 false none true
      = (fftmerge
          (feather_kernel 1 1 ((none : Option ℝ).getD 1) (Real.sqrt 1)).1
          (feather_kernel 1 1 ((none : Option ℝ).getD 1) (Real.sqrt 1)).2
          (fun a b => Sample.scale 1 ((fun (_ : Fin 1) (_ : Fin 1) => Sample.finite 2) a b))
          (fun a b => Sample.scale 1 ((fun (_ : Fin 1) (_ : Fin 1) => Sample.finite 3) a b))
          false none true 0.1).2 :=
  feather_simple_min_beam_fraction_fixed
    (fun _ _ => Sample.finite 2) (fun _ _ => Sample.finite 3) 1 1 none 1 1 false none true

/-- C6: when the size guard passes, the cube combination returns an
`N`-plane cube whose plane `ii` is the real part of the single-plane
`fftmerge` (default flags) of the scaled plane `ii` of the
high-resolution cube and the scaled plane `ii` of the reprojected
low-resolution cube, all planes sharing the one kernel pair built from
the spatial grid — plane `ii` depends on no other plane. -/
theorem fourier_combine_cubes_per_plane {N m n : ℕ} [NeZero m] [NeZero n]
    (cube_hi : Fin N → Fin m → Fin n → Sample)
    (reproject : Unit → Fin N → Fin m → Fin n → Sample)
    (hrsf lrsf fwhm ps : ℝ) (hsize : ¬ 10 ^ 8 < N * m * n) :
    fourier_combine_cubes cube_hi reproject hrsf lrsf fwhm ps
      = Except.ok (fun ii p q =>
          ((fftmerge (feather_kernel m n fwhm ps).1 (feather_kernel m n fwhm ps).2
              (fun a b => Sample.scale hrsf (cube_hi ii a b))
              (fun a b => Sample.scale lrsf (reproject () ii a b))
              false none false 0.1).2 p q).re) := by
  unfold fourier_combine_cubes
  rw [if_neg hsize]

/-- Witness for C6 on a concrete 1×1×1 cube pair. -/
theorem fourier_combine_cubes_per_plane_witness :
    (¬ 10 ^ 8 < 1 * 1 * 1) ∧
    fourier_combine_cubes (fun (_ : Fin 1) (_ : Fin 1) (_ : Fin 1) => Sample.finite 5)
        (fun (_ : Unit) (_ : Fin 1) (_ : Fin 1) (_ : Fin 1) => Sample.finite 3) 1 1 1 1
      = Except.ok (fun ii p q =>
          ((fftmerge (feather_kernel 1 1 1 1).1 (feather_kernel 1 1 1 1).2
              (fun a b => Sample.scale 1 ((fun (_ : Fin 1) (_ : Fin 1) (_ : Fin 1) =>
                Sample.finite 5) ii a b))
              (fun a b => Sample.scale 1 ((fun (_ : Unit) (_ : Fin 1) (_ : Fin 1) (_ : Fin 1) =>
                Sample.finite 3) () ii a b))
              false none false 0.1).2 p q).re) :=
  ⟨by norm_num,
    fourier_combine_cubes_per_plane
      (fun _ _ _ => Sample.finite 5) (fun _ _ _ _ => Sample.finite 3) 1 1 1 1
      (by norm_num)⟩

/-- C7: whenever the high-resolution cube holds more than `1e8` elements,
the cube combination fails with the memory-ceiling error — for every
reprojection oracle and every kernel/scale parameter, so no regridding,
kernel construction or transform influences the outcome. -/
theorem fourier_combine_cubes_size_guard {N m n : ℕ} [NeZero m] [NeZero n]
    (hsize : 10 ^ 8 < N * m * n) :
    ∀ (cube_hi : Fin N → Fin m → Fin n → Sample)
      (reproject : Unit → Fin N → Fin m → Fin n → Sample)
      (hrsf lrsf fwhm ps : ℝ),
      fourier_combine_cubes cube_hi reproject hrsf lrsf fwhm ps
        = Except.error "Cube is probably too large for this operation to work in memory" := by
  intro cube_hi reproject hrsf lrsf fwhm ps
  unfold fourier_combine_cubes
  rw [if_pos hsize]

/-- Witness for C7 on a concrete oversized (100000001-plane 1×1) cube. -/
theorem fourier_combine_cubes_size_guard_witness :
    10 ^ 8 < 100000001 * 1 * 1 ∧
    fourier_combine_cubes (fun (_ : Fin 100000001) (_ : Fin 1) (_ : Fin 1) => Sample.finite 0)
        (fun (_ : Unit) (_ : Fin 100000001) (_ : Fin 1) (_ : Fin 1) => Sample.finite 0) 1 1 1 1
      = Except.error "Cube is probably too large for this operation to work in memory" :=
  ⟨by norm_num,
    fourier_combine_cubes_size_guard (by norm_num)
      (fun _ _ _ => Sample.finite 0) (fun _ _ _ _ => Sample.finite 0) 1 1 1 1⟩

/-- C8: if either input is not exactly 2-dimensional — as reported by its
header `NAXIS` card and by its array rank — `regrid` fails with the
dimensionality assert, for every reprojection oracle (so before any
reprojection is attempted). -/
theorem regrid_dimensionality_guard (hd1 hd2 : FitsHeader) (im1 im2raw : PyArray)
    (hbad : ¬ (hd2.naxis = 2 ∧ im2raw.ndim = 2) ∨ ¬ (hd1.naxis = 2 ∧ im1.ndim = 2)) :
    ∀ reproject_interp,
      ∃ msg, regrid hd1 im1 im2raw hd2 reproject_interp = Except.error msg := by
  intro rp
  unfold regrid
  by_cases h2 : hd2.naxis = im2raw.ndim ∧ im2raw.ndim = 2
  · rw [if_neg (not_not_intro h2)]
    have h2' : hd2.naxis = 2 ∧ im2raw.ndim = 2 := ⟨h2.1.trans h2.2, h2.2⟩
    have h1bad : ¬ (hd1.naxis = 2 ∧ im1.ndim = 2) := hbad.resolve_left (not_not_intro h2')
    have h1 : ¬ (hd1.naxis = im1.ndim ∧ im1.ndim = 2) := fun hc => h1bad ⟨hc.1.trans hc.2, hc.2⟩
    rw [if_pos h1]
    exact ⟨_, rfl⟩
  · rw [if_pos h2]
    exact ⟨_, rfl⟩

/-- Witness for C8 with a concrete 3-D low-resolution input. -/
theorem regrid_dimensionality_guard_witness :
    (¬ (({ naxis := 3, naxis1 := 4, naxis2 := 4, pixArea := 1 } : FitsHeader).naxis = 2
          ∧ ({ ndim := 3, data := fun _ => 0 } : PyArray).ndim = 2)
      ∨ ¬ (({ naxis := 2, naxis1 := 4, naxis2 := 4, pixArea := 1 } : FitsHeader).naxis = 2
          ∧ ({ ndim := 2, data := fun _ => 0 } : PyArray).ndim = 2)) ∧
    ∀ reproject_interp,
      ∃ msg, regrid { naxis := 2, naxis1 := 4, naxis2 := 4, pixArea := 1 }
          { ndim := 2, data := fun _ => 0 } { ndim := 3, data := fun _ => 0 }
          { naxis := 3, naxis1 := 4, naxis2 := 4, pixArea := 1 }
          reproject_interp = Except.error msg :=
  ⟨Or.inl (by norm_num),
    regrid_dimensionality_guard
      { naxis := 2, naxis1 := 4, naxis2 := 4, pixArea := 1 }
      { naxis := 3, naxis1 := 4, naxis2 := 4, pixArea := 1 }
      { ndim := 2, data := fun _ => 0 } { ndim := 3, data := fun _ => 0 }
      (Or.inl (by norm_num))⟩

/-- C10: `fftmerge` never mutates its four argument arrays.  Running the
heap model of the merge on a heap holding `kfft`, `ikfft`, `im_hi`,
`im_lo` at addresses 0–3 leaves those four cells unchanged for every
choice of mode flags; moreover the `fft_lo` field (the cell allocated at
address 5) is also left unmodified — the replace branch overwrites only
its fresh copy and the `deconvSD` branch zeroes only the fresh quotient
array. -/
theorem fftmerge_preserves_inputs {m n : ℕ} (kfft ikfft : Fin m → Fin n → ℝ)
    (im_hi im_lo : Fin m → Fin n → Sample)
    (hp : Bool) (rh : Option ℝ) (dc : Bool) (mbf : ℝ) :
    hread ((fftmergeProg [Cell.rarr kfft, Cell.rarr ikfft, Cell.sarr im_hi, Cell.sarr im_lo]
        0 1 2 3 hp rh dc mbf).1) 0 = Cell.rarr kfft
    ∧ hread ((fftmergeProg [Cell.rarr kfft, Cell.rarr ikfft, Cell.sarr im_hi, Cell.sarr im_lo]
        0 1 2 3 hp rh dc mbf).1) 1 = Cell.rarr ikfft
    ∧ hread ((fftmergeProg [Cell.rarr kfft, Cell.rarr ikfft, Cell.sarr im_hi, Cell.sarr im_lo]
        0 1 2 3 hp rh dc mbf).1) 2 = Cell.sarr im_hi
    ∧ hread ((fftmergeProg [Cell.rarr kfft, Cell.rarr ikfft, Cell.sarr im_hi, Cell.sarr im_lo]
        0 1 2 3 hp rh dc mbf).1) 3 = Cell.sarr im_lo
    ∧ hread ((fftmergeProg [Cell.rarr kfft, Cell.rarr ikfft, Cell.sarr im_hi, Cell.sarr im_lo]
        0 1 2 3 hp rh dc mbf).1) 5
        = Cell.carr (fft2 fun a b => ((nanToNum (im_lo a b) : ℝ) : ℂ)) := by
  cases rh with
  | none =>
    cases hp with
    | false =>
      cases dc with
      | false => exact ⟨rfl, rfl, rfl, rfl, rfl⟩
      | true => exact ⟨rfl, rfl, rfl, rfl, rfl⟩
    | true =>
      cases dc with
      | false => exact ⟨rfl, rfl, rfl, rfl, rfl⟩
      | true => exact ⟨rfl, rfl, rfl, rfl, rfl⟩
  | some t =>
    by_cases ht : t ≠ 0
    · simp only [fftmergeProg]
      rw [if_pos ht]
      exact ⟨rfl, rfl, rfl, rfl, rfl⟩
    · simp only [fftmergeProg]
      rw [if_neg ht]
      cases hp with
      | false =>
        cases dc with
        | false => exact ⟨rfl, rfl, rfl, rfl, rfl⟩
        | true => exact ⟨rfl, rfl, rfl, rfl, rfl⟩
      | true =>
        cases dc with
        | false => exact ⟨rfl, rfl, rfl, rfl, rfl⟩
        | true => exact ⟨rfl, rfl, rfl, rfl, rfl⟩

end UVCombine
